import Mathlib

/-!
Verification of the client-side synchronization layer of the DraftWolf /
DraftFlow Blender addons (`src/aadons/draftwolf_addon.py`,
`src/aadons/draftflow_addon.py`).

The Python string and `os.path` operations used by the addon are embedded as
executable functions on `List Char` (paths are POSIX-style strings; the
`os.path` functions below transcribe the `posixpath` implementations).  The
network, filesystem and Blender-host effects are abstracted as explicit
oracle parameters (an `HttpOutcome` for one request, a `SameFileRes` for one
`os.path.samefile` call, and so on), and each operator body is transcribed as
a pure function from those oracles to its observable behaviour (events,
reports, cache updates).
-/

/-- Python strings are modelled as lists of characters. -/
abbrev Str := List Char

/-- Shorthand for embedding a Lean string literal as a `Str`. -/
def toL (s : String) : Str := s.toList

/-! ### Python string primitives -/

/-- Python `needle in hay` (substring containment). -/
def hasSub (m : Str) : Str → Bool
  | [] => m.isEmpty
  | c :: r => m.isPrefixOf (c :: r) || hasSub m r

/-- Python `hay.find(needle)`: index of the first occurrence, `none` when the
needle does not occur (Python returns `-1`). -/
def findSub (m : Str) : Str → Option Nat
  | [] => if m.isEmpty then some 0 else none
  | c :: r => if m.isPrefixOf (c :: r) then some 0 else (findSub m r).map (· + 1)

/-- Python `l.endswith(m)`. -/
def endsWithL (l m : Str) : Bool := m.isSuffixOf l

/-- Python `l.startswith('/')`. -/
def startsWithSlash : Str → Bool
  | [] => false
  | c :: _ => c == '/'

/-- Split at the last occurrence of `c`: returns `some (before, after)` with
`l = before ++ c :: after` and `c ∉ after`, or `none` when `c ∉ l`.
Backs the embeddings of `os.path.basename`/`dirname`/`splitext` and of
Python `rsplit(c, 1)`. -/
def breakAtLast (c : Char) : Str → Option (Str × Str)
  | [] => none
  | x :: xs =>
    match breakAtLast c xs with
    | some (b, a) => some (x :: b, a)
    | none => if x == c then some ([], xs) else none

/-- Python `l.split(m)[0]` for a non-empty separator `m`: everything before
the first occurrence of `m` (the whole of `l` when `m` does not occur). -/
def splitFirstBefore (m : Str) : Str → Str
  | [] => []
  | c :: r => if m.isPrefixOf (c :: r) then [] else c :: splitFirstBefore m r

set_option linter.unusedVariables false in
/-- Python `l.replace(m, '')` for a non-empty `m`: remove all (non-overlapping,
left-to-right) occurrences of `m`.  (For `m = []` Python returns `l`
unchanged; the guard keeps the recursion well-founded.) -/
def removeAll (m : Str) (l : Str) : Str :=
  if hm : m = [] then l
  else
    match l with
    | [] => []
    | c :: r =>
      if m.isPrefixOf (c :: r) then removeAll m (List.drop m.length (c :: r))
      else c :: removeAll m r
termination_by l.length
decreasing_by
  · simp only [List.length_drop, List.length_cons]
    have : 1 ≤ m.length := List.length_pos.mpr hm
    omega
  · simp

/-- Python `l.rsplit('-', 1)[0]`: everything before the last hyphen (the whole
of `l` when there is no hyphen). -/
def beforeLastHyphen (l : Str) : Str :=
  match breakAtLast '-' l with
  | some (b, _) => b
  | none => l

/-- Python `l.lower()` (ASCII case folding, which covers every marker string
the addon compares against). -/
def lowerL (l : Str) : Str := l.map Char.toLower

/-! ### `posixpath` operations -/

/-- Strip trailing slashes (the `rstrip('/')` step of `posixpath.dirname`). -/
def rstripSlash (l : Str) : Str := (l.reverse.dropWhile (· == '/')).reverse

/-- `os.path.basename` (posix): everything after the last slash. -/
def basenameL (p : Str) : Str :=
  match breakAtLast '/' p with
  | none => p
  | some (_, a) => a

/-- `os.path.dirname` (posix): everything up to and including the last slash,
with trailing slashes stripped unless the head consists only of slashes. -/
def dirnameL (p : Str) : Str :=
  match breakAtLast '/' p with
  | none => []
  | some (b, _) =>
    if (b ++ ['/']).all (· == '/') then b ++ ['/'] else rstripSlash (b ++ ['/'])

/-- `os.path.splitext` applied to a basename (the addon only ever applies it
to `os.path.basename(...)`, so the slash handling of `posixpath.splitext` is
vacuous): split at the last dot, except that a candidate stem consisting only
of dots yields no extension. -/
def splitextL (f : Str) : Str × Str :=
  match breakAtLast '.' f with
  | none => (f, [])
  | some (b, a) => if b.any (fun c => c != '.') then (b, '.' :: a) else (f, [])

/-- `os.path.join` (posix) for two components. -/
def joinL (a b : Str) : Str :=
  if startsWithSlash b then b
  else if a.isEmpty || endsWithL a ['/'] then a ++ b
  else a ++ '/' :: b

/-- Python `p.split('/')` (used by `posixpath.normpath`). -/
def splitOnChar (c : Char) : Str → List Str
  | [] => [[]]
  | x :: r =>
    let rest := splitOnChar c r
    if x == c then [] :: rest
    else
      match rest with
      | [] => [[x]]
      | h :: t => (x :: h) :: t

/-- `os.path.normpath` (posix): collapse repeated separators and resolve
`.`/`..` components textually. -/
def normpathL (p : Str) : Str :=
  if p.isEmpty then toL "."
  else
    let initSlashes : Nat :=
      if startsWithSlash p then
        if (toL "//").isPrefixOf p && !((toL "///").isPrefixOf p) then 2 else 1
      else 0
    let comps := splitOnChar '/' p
    let newComps := comps.foldl (fun acc comp =>
      if comp.isEmpty || comp == toL "." then acc
      else if comp != toL ".." || (initSlashes == 0 && acc.isEmpty)
          || (acc.getLast? == some (toL "..")) then
        acc ++ [comp]
      else if !acc.isEmpty then acc.dropLast
      else acc) []
    let joined := List.intercalate (toL "/") newComps
    let res := List.replicate initSlashes '/' ++ joined
    if res.isEmpty then toL "." else res

/-! ### Regular-expression suffix strippers

`draftwolf_addon.py` pre-compiles `VERSION_SUFFIX_PATTERN = r'-v[\d\.]+$'`
and `NUMBER_SUFFIX_PATTERN = r'-\d+$'` and applies them with `re.sub(_, '')`.
An end-anchored `re.sub` removes the suffix starting at the leftmost position
whose tail matches the pattern, or leaves the string unchanged. -/

/-- A character matched by the class `[\d\.]`. -/
def isVerChar (c : Char) : Bool := c.isDigit || c == '.'

/-- Does the whole list match `-v[\d\.]+`? -/
def isVTagAt : Str → Bool
  | '-' :: 'v' :: rest => !rest.isEmpty && rest.all isVerChar
  | _ => false

/-- Does the whole list match `-\d+`? -/
def isNumTagAt : Str → Bool
  | '-' :: rest => !rest.isEmpty && rest.all Char.isDigit
  | _ => false

/-- Index of the leftmost suffix position satisfying `p`. -/
def firstMatchIdx (p : Str → Bool) : Str → Option Nat
  | [] => none
  | c :: r => if p (c :: r) then some 0 else (firstMatchIdx p r).map (· + 1)

/-- `VERSION_SUFFIX_PATTERN.sub('', l)`: strip a trailing `-v` version tag. -/
def stripVSuffix (l : Str) : Str :=
  match firstMatchIdx isVTagAt l with
  | some i => l.take i
  | none => l

/-- `NUMBER_SUFFIX_PATTERN.sub('', l)`: strip a trailing `-<digits>` counter. -/
def stripNumSuffix (l : Str) : Str :=
  match firstMatchIdx isNumTagAt l with
  | some i => l.take i
  | none => l

/-! ### Restore-marker constants -/

/-- The legacy restore marker checked first by `recover_original_filepath`. -/
def legacyMarker : Str := toL "-retrieved-version"

/-- The legacy marker followed by a disambiguating hyphen. -/
def legacyMarkerD : Str := toL "-retrieved-version-"

/-- The current restore marker. -/
def retrMarker : Str := toL "-retrieved"

/-- The plain-text (space) variant of the marker, only consulted by the
history-filtering normalization. -/
def spaceMarker : Str := toL " retrieved version"

/-! ### Filename Identity Resolver -/

/-- `recover_original_filepath` (`draftwolf_addon.py` lines 33-53), the
`StrictRecover` strategy of the spec.  A line-by-line transcription:

* `name.endswith('-retrieved-version') or '-retrieved-version-' in name`:
  split before the first `'-retrieved-version'` and rejoin with the
  directory and extension;
* `name.endswith('-retrieved')`: drop the suffix; only if a hyphen remains
  is everything after the last hyphen dropped and the path rebuilt —
  otherwise the function falls through and returns the input unchanged;
* otherwise the input is returned unchanged. -/
def recover_original_filepath (filepath : Str) : Str :=
  let filename := basenameL filepath
  let ne := splitextL filename
  let name := ne.1
  let ext := ne.2
  if endsWithL name legacyMarker || hasSub legacyMarkerD name then
    if hasSub legacyMarker name then
      joinL (dirnameL filepath) (splitFirstBefore legacyMarker name ++ ext)
    else filepath
  else if endsWithL name retrMarker then
    let temp := name.take (name.length - retrMarker.length)
    if hasSub (toL "-") temp then
      joinL (dirnameL filepath) (beforeLastHyphen temp ++ ext)
    else filepath
  else filepath

/-- The filename clean-up performed by `load_version_history`
(`draftwolf_addon.py` lines 169-182), the `LooseNormalize` strategy of the
spec, applied to `os.path.basename(filepath)`:

* if the lower-cased stem contains `' retrieved version'`, truncate the stem
  at the position `str.lower().find` reports;
* else if the stem contains `'-retrieved'`, remove every occurrence of it and
  strip a trailing `-v[\d\.]+` and then a trailing `-\d+` suffix;
* rejoin with the extension. -/
def looseNormalize (target_file : Str) : Str :=
  let ne := splitextL target_file
  let name := ne.1
  let ext := ne.2
  let clean :=
    match findSub spaceMarker (lowerL name) with
    | some idx => name.take idx
    | none =>
      if hasSub retrMarker name then
        stripNumSuffix (stripVSuffix (removeAll retrMarker name))
      else name
  clean ++ ext

/-! ### Remote Client (`send_request`) -/

/-- A minimal model of the Python values produced by `json.loads` and by the
literal dictionaries `send_request` builds itself. -/
inductive PyVal where
  | vNone
  | vBool (b : Bool)
  | vStr (s : Str)
  | vNum (n : Int)
  | vDict (fields : List (Str × PyVal))

/-- The transport-level outcome of one `urllib.request.urlopen` call:
a 2xx response with a body, an `HTTPError` carrying a status code and an
error body, or one of the caught network exceptions (`URLError`,
`TimeoutError`, `ConnectionRefusedError`, `OSError`) carrying its message. -/
inductive HttpOutcome where
  | success (body : Str)
  | httpError (code : Nat) (body : Str)
  | netError (emsg : Str)

/-- What `send_request` does from its caller's point of view: return a value,
or let an exception propagate. -/
inductive ReqOutcome where
  | ret (v : PyVal)
  | raises

/-- The uniform failure dictionary `{'success': False, 'error': e}`. -/
def uniformFailure (e : Str) : PyVal :=
  .vDict [(toL "success", .vBool false), (toL "error", .vStr e)]

/-- Decimal rendering of an HTTP status code (for the `f"HTTP {e.code}"`
message). -/
def natToStr (n : Nat) : Str := toL (toString n)

/-- `send_request` (`draftwolf_addon.py` lines 55-80; `draftflow_addon.py`
lines 25-47 is identical except for the timeout value and the set of caught
network exceptions, which the `HttpOutcome.netError` constructor abstracts).
`json.loads` is abstracted as the oracle `parse`; `parse body = none` means
the body is not valid JSON, in which case `json.loads` raises.

* 2xx: the body is parsed and returned; a parse failure raises
  (`json.JSONDecodeError` is not among the caught exception classes);
* `HTTPError`: the error body is parsed and returned as-is; any failure is
  swallowed by the bare `except:` and the uniform `HTTP <code>` failure is
  returned;
* caught network errors: the uniform failure with the exception text. -/
def send_request (parse : Str → Option PyVal) : HttpOutcome → ReqOutcome
  | .success body =>
    match parse body with
    | some v => .ret v
    | none => .raises
  | .httpError code body =>
    match parse body with
    | some v => .ret v
    | none => .ret (uniformFailure (toL "HTTP " ++ natToStr code))
  | .netError m => .ret (uniformFailure m)

/-- Does a value have the uniform failure shape
`{'success': False, 'error': <string>}`? -/
def isUniformFailure : PyVal → Bool
  | .vDict [(k1, .vBool false), (k2, .vStr _)] =>
    k1 == toL "success" && k2 == toL "error"
  | _ => false

/-! ### Root Cache (`RootCache` / `get_project_root`) -/

/-- One `RootCache.cache` entry `{'root': ..., 'time': ...}`.  Timestamps are
modelled as rationals (Python uses `time.time()` floats). -/
structure RootEntry where
  root : Option Str
  time : ℚ
deriving DecidableEq

/-- `RootCache.cache`, a dict keyed by directory path. -/
abbrev RootCacheT := List (Str × RootEntry)

namespace RootCache

/-- `RootCache.duration = 30.0` (`draftwolf_addon.py` line 223). -/
def duration : ℚ := 30

end RootCache

namespace SafeVersionList

/-- `SafeVersionList.fetch_interval = 10.0` (`draftwolf_addon.py` line 201). -/
def fetch_interval : ℚ := 10

end SafeVersionList

/-- Dict lookup `dir_path in RootCache.cache` / `RootCache.cache[dir_path]`. -/
def lookupRC (k : Str) : RootCacheT → Option RootEntry
  | [] => none
  | (k', v) :: r => if k' == k then some v else lookupRC k r

/-- Dict assignment `RootCache.cache[dir_path] = entry`. -/
def updateRC (k : Str) (v : RootEntry) : RootCacheT → RootCacheT
  | [] => [(k, v)]
  | (k', v') :: r => if k' == k then (k, v) :: r else (k', v') :: updateRC k v r

/-- The observable result of one `get_project_root` call: the returned root,
the cache left behind, and how many `/draft/find-root` requests were made. -/
structure RootLookupResult where
  root : Option Str
  cache : RootCacheT
  calls : Nat
deriving DecidableEq

/-- `get_project_root` (`draftwolf_addon.py` lines 82-103).  The remote
`/draft/find-root` request is abstracted as the oracle `remote`, mapping the
queried directory to `res.get('root')` of the (already parsed) response.

* an empty (falsy) `filepath` returns `None` at once;
* a cached entry younger than `RootCache.duration` is returned without any
  request;
* otherwise one request is made and its result — possibly `None`, meaning
  "no root found" — is stored with the current timestamp. -/
def get_project_root (remote : Str → Option Str) (now : ℚ) (filepath : Str)
    (cache : RootCacheT) : RootLookupResult :=
  if filepath.isEmpty then ⟨none, cache, 0⟩
  else
    let dir_path := dirnameL filepath
    let fetch : RootLookupResult :=
      let root := remote dir_path
      ⟨root, updateRC dir_path ⟨root, now⟩ cache, 1⟩
    match lookupRC dir_path cache with
    | some entry =>
      if now - entry.time < RootCache.duration then ⟨entry.root, cache, 0⟩
      else fetch
    | none => fetch

/-! ### Status Poller (`status_worker`) -/

/-- The `StatusCache` fields written by the background thread. -/
structure StatusSnapshot where
  app_running : Bool
  is_logged_in : Bool
  username : Option Str
deriving DecidableEq

/-- The outcome of one iteration of the `status_worker` loop body, from the
point of view of its `try` block:

* `healthRaises`: the `/health` request raised before `app_running` was
  assigned;
* `healthDown`: `/health` answered but `bool(res and res.get('success'))`
  was false;
* `authRaises`: `/health` succeeded (so `app_running` was set `True`) and
  the `/auth/status` request raised;
* `authRes li un`: `/auth/status` answered; `li` is the truthiness of
  `auth_res.get('loggedIn')` and `un` is `auth_res.get('username')`
  (absent key modelled as `none`, defaulted to `'User'` by the code). -/
inductive PollOutcome where
  | healthRaises
  | healthDown
  | authRaises
  | authRes (loggedIn : Bool) (uname : Option Str)

/-- The username truncation `uname[:12] + "..."` applied when
`len(uname) > 15`. -/
def truncName (u : Str) : Str :=
  if 15 < u.length then u.take 12 ++ toL "..." else u

/-- One iteration of the `status_worker` loop body
(`draftwolf_addon.py` lines 114-148), as a transformer of the shared
`StatusCache` state.  The `except Exception` handler only assigns
`StatusCache.app_running = False`. -/
def status_worker_step (st : StatusSnapshot) : PollOutcome → StatusSnapshot
  | .healthRaises => { st with app_running := false }
  | .healthDown => ⟨false, false, none⟩
  | .authRaises => { st with app_running := false }
  | .authRes li un =>
    if li then ⟨true, true, some (truncName (un.getD (toL "User")))⟩
    else ⟨true, false, none⟩

/-- The `StatusSnapshot` invariant claimed by the spec: a detected disconnect
leaves no stale login state behind. -/
def snapInv (s : StatusSnapshot) : Prop :=
  s.app_running = false → s.is_logged_in = false ∧ s.username = none

/-! ### Restore Sequencer (`OBJECT_OT_DfRetrieve.execute`) -/

/-- The three host/remote operations whose order the restore claims are
about: `bpy.ops.wm.read_homefile` (ReleaseLock), the `/draft/restore`
request (RemoteRestore) and `bpy.ops.wm.open_mainfile` (Reopen). -/
inductive REvent where
  | releaseLock
  | remoteRestore
  | reopen
deriving DecidableEq

/-- The user-visible reports the operator can emit, by provenance:
`restoredInfo` = `INFO "Restored Version ..."`,
`reopenFailErr` = `ERROR "Restored but failed to open: ..."`,
`restoreFailErr` = `ERROR "Restore failed: ..."`. -/
inductive RReport where
  | restoredInfo
  | reopenFailErr
  | restoreFailErr
deriving DecidableEq

/-- Blender operator return value. -/
inductive OpStatus where
  | cancelled
  | finished
deriving DecidableEq

/-- Outcome of the `os.path.samefile(filepath, req_filepath)` call: a boolean
answer, or an exception (e.g. a path does not exist), which sends the code to
the `os.path.normpath` string-comparison fallback. -/
inductive SameFileRes where
  | ok (b : Bool)
  | raises

/-- The oracles for one restore execution: the `samefile` outcome, the
truthiness of `res and res.get('success')` for the `/draft/restore` response,
and whether `bpy.ops.wm.open_mainfile` raises. -/
structure RestoreEnv where
  sameFile : SameFileRes
  restoreOk : Bool
  reopenRaises : Bool

/-- The observable behaviour of one restore execution. -/
structure RestoreRun where
  events : List REvent
  reports : List RReport
  status : OpStatus
deriving DecidableEq

/-- The `is_open_file` computation: `try: os.path.samefile ... except:` fall
back to comparing `os.path.normpath` of both paths. -/
def isOpenFileCheck (filepath req : Str) : SameFileRes → Bool
  | .ok b => b
  | .raises => normpathL filepath == normpathL req

/-- Python truthiness of the `get_project_root` result (`if not root`). -/
def truthyRoot : Option Str → Bool
  | none => false
  | some r => !r.isEmpty

/-- `OBJECT_OT_DfRetrieve.execute` (`draftwolf_addon.py` lines 321-370).
`OBJECT_OT_DfRestoreQuick.execute` (lines 640-688) has identical control
flow — only the literal report strings differ — so this one transcription
models both operators.

* falsy `version_id` or falsy project root: `CANCELLED`, nothing happens;
* `req_filepath := recover_original_filepath filepath`; `is_open_file` via
  `samefile`/`normpath`;
* if `is_open_file`: `bpy.ops.wm.read_homefile` (ReleaseLock);
* the `/draft/restore` request (RemoteRestore);
* on success: INFO report, then Reopen, whose failure is reported
  separately (`"Restored but failed to open"`);
* on failure: ERROR report, then Reopen is attempted only when
  `is_open_file`, inside `try: ... except: pass`. -/
def restore_execute (remote : Str → Option Str) (now : ℚ) (cache : RootCacheT)
    (filepath version_id : Str) (env : RestoreEnv) : RestoreRun :=
  if version_id.isEmpty then ⟨[], [], .cancelled⟩
  else if !truthyRoot (get_project_root remote now filepath cache).root then
    ⟨[], [], .cancelled⟩
  else
    let req := recover_original_filepath filepath
    let is_open_file := isOpenFileCheck filepath req env.sameFile
    let ev0 : List REvent := if is_open_file then [.releaseLock] else []
    let ev1 := ev0 ++ [.remoteRestore]
    if env.restoreOk then
      ⟨ev1 ++ [.reopen],
       .restoredInfo :: (if env.reopenRaises then [.reopenFailErr] else []),
       .finished⟩
    else
      ⟨ev1 ++ (if is_open_file then [.reopen] else []),
       [.restoreFailErr],
       .finished⟩

/-! ### Helper lemmas about the string primitives -/

theorem isPrefixOf_true_iff {m l : Str} : m.isPrefixOf l = true ↔ ∃ t, l = m ++ t := by
  rw [ List.isPrefixOf_iff_prefix]
  constructor
  · rintro ⟨t, ht⟩
    exact ⟨t, ht.symm⟩
  · rintro ⟨t, rfl⟩
    exact ⟨t, rfl⟩

theorem isSuffixOf_true_iff {m l : Str} : m.isSuffixOf l = true ↔ ∃ s, l = s ++ m := by
  rw [ List.isSuffixOf_iff_suffix]
  constructor
  · rintro ⟨s, hs⟩
    exact ⟨s, hs.symm⟩
  · rintro ⟨s, rfl⟩
    exact ⟨s, rfl⟩

theorem isSuffixOf_append {s : Str} (a : Str) : s.isSuffixOf (a ++ s) = true :=
  isSuffixOf_true_iff.mpr ⟨a, rfl⟩

theorem suffix_of_suffix_le {s₁ s₂ l : Str} (h1 : s₁.isSuffixOf l = true)
    (h2 : s₂.isSuffixOf l = true) (hle : s₁.length ≤ s₂.length) :
    s₁.isSuffixOf s₂ = true := by
  rw [ List.isSuffixOf_iff_suffix] at h1 h2 ⊢
  exact List.suffix_of_suffix_length_le h1 h2 hle

theorem breakAtLast_none {c : Char} {l : Str} (h : c ∉ l) : breakAtLast c l = none := by
  induction l with
  | nil => rfl
  | cons x xs ih =>
    simp only [List.mem_cons, not_or] at h
    simp [breakAtLast, ih h.2, Ne.symm h.1]

theorem not_mem_of_breakAtLast_none {c : Char} {l : Str} (h : breakAtLast c l = none) :
    c ∉ l := by
  induction l with
  | nil => simp
  | cons x xs ih =>
    simp only [breakAtLast] at h
    cases hx : breakAtLast c xs with
    | some p => rw [hx] at h; exact absurd h (by simp)
    | none =>
      rw [hx] at h
      by_cases hc : x == c
      · simp [hc] at h
      · simp only [List.mem_cons, not_or]
        exact ⟨fun he => hc (by simp [he]), ih hx⟩

theorem breakAtLast_append {c : Char} (l₁ : Str) {l₂ : Str} (h : c ∉ l₂) :
    breakAtLast c (l₁ ++ c :: l₂) = some (l₁, l₂) := by
  induction l₁ with
  | nil => simp [breakAtLast, breakAtLast_none h]
  | cons x xs ih => simp [breakAtLast, ih]

theorem breakAtLast_sound {c : Char} {l b a : Str} (h : breakAtLast c l = some (b, a)) :
    l = b ++ c :: a ∧ c ∉ a := by
  induction l generalizing b a with
  | nil => simp [breakAtLast] at h
  | cons x xs ih =>
    simp only [breakAtLast] at h
    cases hx : breakAtLast c xs with
    | some p =>
      obtain ⟨p1, p2⟩ := p
      rw [hx] at h
      simp only [Option.some.injEq, Prod.mk.injEq] at h
      obtain ⟨hb, ha⟩ := h
      obtain ⟨hxs, hmem⟩ := ih hx
      subst hb ha hxs
      exact ⟨rfl, hmem⟩
    | none =>
      rw [hx] at h
      by_cases hc : x == c
      · simp only [hc, if_pos] at h
        simp only [Option.some.injEq, Prod.mk.injEq] at h
        obtain ⟨hb, ha⟩ := h
        subst hb ha
        exact ⟨by simp [beq_iff_eq.mp hc], not_mem_of_breakAtLast_none hx⟩
      · simp [hc] at h

theorem hasSub_exists {m l : Str} :
    hasSub m l = true ↔ ∃ k, m.isPrefixOf (l.drop k) = true := by
  induction l with
  | nil =>
    constructor
    · intro h
      refine ⟨0, ?_⟩
      have hm : m = [] := List.isEmpty_iff.mp (by simpa [hasSub] using h)
      simp [hm]
    · rintro ⟨k, hk⟩
      simp only [List.drop_nil] at hk
      cases m with
      | nil => simp [hasSub]
      | cons a as => simp at hk
  | cons c r ih =>
    simp only [hasSub, Bool.or_eq_true]
    constructor
    · rintro (h | h)
      · exact ⟨0, by simpa using h⟩
      · obtain ⟨k, hk⟩ := ih.mp h
        exact ⟨k + 1, by simpa using hk⟩
    · rintro ⟨k, hk⟩
      cases k with
      | zero => exact Or.inl (by simpa using hk)
      | succ k =>
        exact Or.inr (ih.mpr ⟨k, by simpa using hk⟩)

theorem hasSub_refl (m : Str) : hasSub m m = true :=
  hasSub_exists.mpr ⟨0, by simp [isPrefixOf_true_iff]⟩

theorem hasSub_append_left {m a : Str} (b : Str) (h : hasSub m a = true) :
    hasSub m (a ++ b) = true := by
  obtain ⟨k, hk⟩ := hasSub_exists.mp h
  obtain ⟨t, ht⟩ := isPrefixOf_true_iff.mp hk
  refine hasSub_exists.mpr ⟨k, isPrefixOf_true_iff.mpr ⟨t ++ b.drop (k - a.length), ?_⟩⟩
  rw [List.drop_append_eq_append_drop, ht, List.append_assoc]

theorem hasSub_append_right {m b : Str} (a : Str) (h : hasSub m b = true) :
    hasSub m (a ++ b) = true := by
  obtain ⟨k, hk⟩ := hasSub_exists.mp h
  refine hasSub_exists.mpr ⟨a.length + k, ?_⟩
  rw [List.drop_append_eq_append_drop, List.drop_eq_nil_of_le (by omega)]
  simpa using hk

theorem hasSub_trans {x m l : Str} (h1 : hasSub x m = true) (h2 : hasSub m l = true) :
    hasSub x l = true := by
  obtain ⟨j, hj⟩ := hasSub_exists.mp h1
  obtain ⟨s, hs⟩ := isPrefixOf_true_iff.mp hj
  obtain ⟨k, hk⟩ := hasSub_exists.mp h2
  obtain ⟨t, ht⟩ := isPrefixOf_true_iff.mp hk
  refine hasSub_exists.mpr ⟨k + j, isPrefixOf_true_iff.mpr ⟨s ++ t.drop (j - m.length), ?_⟩⟩
  rw [← List.drop_drop, ht, List.drop_append_eq_append_drop, hs, List.append_assoc]

theorem hasSub_of_isSuffixOf {m l : Str} (h : m.isSuffixOf l = true) : hasSub m l = true := by
  obtain ⟨s, rfl⟩ := isSuffixOf_true_iff.mp h
  exact hasSub_append_right s (hasSub_refl m)

theorem hasSub_of_pref {m n b : Str} (hnb : ∃ t, b = n ++ t) (h : hasSub m n = true) :
    hasSub m b = true := by
  obtain ⟨t, rfl⟩ := hnb
  exact hasSub_append_left t h

theorem findSub_isSome {m l : Str} : (findSub m l).isSome = hasSub m l := by
  induction l with
  | nil =>
    by_cases hm : m.isEmpty
    · simp [findSub, hasSub, hm]
    · simp [findSub, hasSub, hm]
  | cons c r ih =>
    by_cases hp : m.isPrefixOf (c :: r)
    · simp [findSub, hasSub, hp]
    · simp only [findSub, hasSub, hp, if_neg, Bool.false_or]
      simpa using ih

theorem pref_drop_append_cases {m a b : Str} {k : Nat} (hk : k < a.length)
    (h : m.isPrefixOf ((a ++ b).drop k) = true) :
    (k + m.length ≤ a.length ∧ m.isPrefixOf (a.drop k) = true) ∨
    ∃ j, 0 < j ∧ j < m.length ∧ (∃ s, a = s ++ m.take j) ∧
      (m.drop j).isPrefixOf b = true := by
  obtain ⟨t, ht⟩ := isPrefixOf_true_iff.mp h
  rw [List.drop_append_eq_append_drop, Nat.sub_eq_zero_of_le (Nat.le_of_lt hk),
    List.drop_zero] at ht
  by_cases hm : k + m.length ≤ a.length
  · left
    refine ⟨hm, isPrefixOf_true_iff.mpr ⟨(a.drop k).drop m.length, ?_⟩⟩
    have hlen : m.length ≤ (a.drop k).length := by
      simp only [List.length_drop]; omega
    have : (a.drop k).take m.length = m := by
      have h1 := congrArg (List.take m.length) ht
      rwa [List.take_append_of_le_length hlen, List.take_left] at h1
    conv_lhs => rw [← List.take_append_drop m.length (a.drop k), this]
  · right
    have hj0 : 0 < a.length - k := by omega
    have hjm : a.length - k < m.length := by omega
    refine ⟨a.length - k, hj0, hjm, ⟨a.take k, ?_⟩, ?_⟩
    · have hlen : (a.drop k).length = a.length - k := by simp
      have h1 := congrArg (List.take (a.length - k)) ht
      rw [List.take_left' hlen, List.take_append_of_le_length (Nat.le_of_lt hjm)] at h1
      conv_lhs => rw [← List.take_append_drop k a, h1]
    · have hlen : (a.drop k).length = a.length - k := by simp
      have h1 := congrArg (List.drop (a.length - k)) ht
      rw [List.drop_left' hlen, List.drop_append_of_le_length (Nat.le_of_lt hjm)] at h1
      exact isPrefixOf_true_iff.mpr ⟨t, h1⟩

theorem hasSub_append_cases {m a b : Str} (h : hasSub m (a ++ b) = true) :
    hasSub m a = true ∨ hasSub m b = true ∨
    ∃ j, 0 < j ∧ j < m.length ∧ (∃ s, a = s ++ m.take j) ∧
      (m.drop j).isPrefixOf b = true := by
  obtain ⟨k, hk⟩ := hasSub_exists.mp h
  by_cases hka : k < a.length
  · rcases pref_drop_append_cases hka hk with ⟨-, hpre⟩ | hstr
    · exact Or.inl (hasSub_exists.mpr ⟨k, hpre⟩)
    · exact Or.inr (Or.inr hstr)
  · rw [List.drop_append_eq_append_drop, List.drop_eq_nil_of_le (by omega),
      List.nil_append] at hk
    exact Or.inr (Or.inl (hasSub_exists.mpr ⟨k - a.length, hk⟩))

theorem splitFirstBefore_append {m : Str} (a t : Str)
    (h : ∀ k, k < a.length → m.isPrefixOf ((a ++ (m ++ t)).drop k) = false) :
    splitFirstBefore m (a ++ (m ++ t)) = a := by
  induction a with
  | nil =>
    cases hmt : m ++ t with
    | nil => simp [splitFirstBefore, hmt]
    | cons c r =>
      have hp : m.isPrefixOf (c :: r) = true := by
        rw [← hmt]; exact isPrefixOf_true_iff.mpr ⟨t, rfl⟩
      simp [splitFirstBefore, hmt, hp]
  | cons x xs ih =>
    have h0 := h 0 (by simp)
    rw [List.drop_zero, List.cons_append] at h0
    have hrec : splitFirstBefore m (x :: (xs ++ (m ++ t)))
        = x :: splitFirstBefore m (xs ++ (m ++ t)) := by
      simp [splitFirstBefore, h0]
    rw [List.cons_append, hrec, List.cons.injEq]
    refine ⟨rfl, ih fun k hkl => ?_⟩
    have := h (k + 1) (by simp only [List.length_cons]; omega)
    rw [List.cons_append, List.drop_succ_cons] at this
    exact this

theorem splitextL_recomb (f : Str) : (splitextL f).1 ++ (splitextL f).2 = f := by
  unfold splitextL
  cases hb : breakAtLast '.' f with
  | none => simp
  | some p =>
    obtain ⟨b, a⟩ := p
    obtain ⟨hf, -⟩ := breakAtLast_sound hb
    by_cases hany : b.any (fun c => c != '.')
    · simp [hany, hf]
    · simp [hany]

theorem hasSub_false_of_pref {m n b : Str} (hnb : ∃ t, b = n ++ t)
    (h : hasSub m b = false) : hasSub m n = false := by
  cases hx : hasSub m n with
  | false => rfl
  | true => rw [hasSub_of_pref hnb hx] at h; exact h

theorem splitextL_fst_pref (f : Str) : ∃ t, f = (splitextL f).1 ++ t :=
  ⟨(splitextL f).2, (splitextL_recomb f).symm⟩

theorem lowerL_append (a b : Str) : lowerL (a ++ b) = lowerL a ++ lowerL b := by
  simp [lowerL]

theorem lowerL_pref {n b : Str} (h : ∃ t, b = n ++ t) :
    ∃ t, lowerL b = lowerL n ++ t := by
  obtain ⟨t, rfl⟩ := h
  exact ⟨lowerL t, lowerL_append n t⟩

/-- The three branch guards of `recover_original_filepath` are all false for a
stem that does not contain `'-retrieved'`. -/
theorem no_marker_conds {n : Str} (h : hasSub retrMarker n = false) :
    endsWithL n legacyMarker = false ∧ hasSub legacyMarkerD n = false ∧
    endsWithL n retrMarker = false := by
  refine ⟨?_, ?_, ?_⟩
  · cases hE : endsWithL n legacyMarker with
    | false => rfl
    | true =>
      have : hasSub retrMarker n = true :=
        hasSub_trans (by decide) (hasSub_of_isSuffixOf hE)
      rw [h] at this; exact this.symm
  · cases hE : hasSub legacyMarkerD n with
    | false => rfl
    | true =>
      have : hasSub retrMarker n = true := hasSub_trans (by decide) hE
      rw [h] at this; exact this.symm
  · cases hE : endsWithL n retrMarker with
    | false => rfl
    | true =>
      have : hasSub retrMarker n = true := hasSub_of_isSuffixOf hE
      rw [h] at this; exact this.symm

/-- `recover_original_filepath` leaves a path untouched when the stem of its
basename does not contain `'-retrieved'`. -/
theorem recover_id_of_no_marker {p : Str}
    (h : hasSub retrMarker (splitextL (basenameL p)).1 = false) :
    recover_original_filepath p = p := by
  obtain ⟨h1, h2, h3⟩ := no_marker_conds h
  simp only [recover_original_filepath, h1, h2, h3, Bool.or_self, if_false,
    Bool.false_eq_true]

/-! ### Evaluation lemmas for well-formed `dir ++ '/' :: rest` paths -/

theorem basenameL_eval {dir rest : Str} (hr : ('/' : Char) ∉ rest) :
    basenameL (dir ++ '/' :: rest) = rest := by
  unfold basenameL
  rw [breakAtLast_append dir hr]

theorem dirnameL_eval {dir rest : Str} (hd : dir ≠ [])
    (hds : endsWithL dir ['/'] = false) (hr : ('/' : Char) ∉ rest) :
    dirnameL (dir ++ '/' :: rest) = dir := by
  obtain ⟨c, rs, hrev⟩ : ∃ c rs, dir.reverse = c :: rs := by
    cases hx : dir.reverse with
    | nil => exact absurd (by simpa using congrArg List.reverse hx) hd
    | cons c rs => exact ⟨c, rs, rfl⟩
  have hc : (c == '/') = false := by
    rw [beq_eq_false_iff_ne]
    intro hceq
    have : endsWithL dir ['/'] = true := by
      unfold endsWithL List.isSuffixOf
      simp [hrev, List.isPrefixOf, hceq]
    rw [hds] at this; exact Bool.false_ne_true this
  have hall : (dir ++ ['/']).all (· == '/') = false := by
    rw [List.all_append]
    have : dir.all (· == '/') = false := by
      rw [← List.all_reverse, hrev]
      simp [hc]
    simp [this]
  have hstrip : rstripSlash (dir ++ ['/']) = dir := by
    unfold rstripSlash
    have h1 : (dir ++ ['/']).reverse = '/' :: dir.reverse := by
      rw [List.reverse_append]; rfl
    rw [h1, List.dropWhile_cons, if_pos (by simp), hrev, List.dropWhile_cons,
      if_neg (by simp [hc]), ← hrev, List.reverse_reverse]
  simp only [dirnameL, breakAtLast_append dir hr, hall, Bool.false_eq_true, if_false,
    hstrip]

theorem joinL_eval {dir x : Str} (hd : dir ≠ []) (hds : endsWithL dir ['/'] = false)
    (hx : startsWithSlash x = false) : joinL dir x = dir ++ '/' :: x := by
  unfold joinL
  rw [hx, if_neg (by simp), if_neg]
  simp [List.isEmpty_iff, hd, hds]

theorem startsWithSlash_dot {name e : Str} (hn : ('/' : Char) ∉ name) :
    startsWithSlash (name ++ '.' :: e) = false := by
  cases name with
  | nil => rfl
  | cons c r =>
    have : c ≠ '/' := fun hc => hn (by simp [hc])
    simp [startsWithSlash, this]

theorem splitextL_eval {n e : Str} (he : ('.' : Char) ∉ e)
    (hany : n.any (fun c => c != '.') = true) :
    splitextL (n ++ '.' :: e) = (n, '.' :: e) := by
  simp [splitextL, breakAtLast_append n he, hany]

/-- Round trip through the current marker: restoring `name.ext` to
`name-v1.2-retrieved.ext` and applying `recover_original_filepath` recovers
`dir/name.ext`, for any stem `name` free of the `'-retrieved'` marker. -/
theorem recover_vtag_eval {dir name e : Str} (hd : dir ≠ [])
    (hds : endsWithL dir ['/'] = false) (hn : ('/' : Char) ∉ name)
    (he1 : ('/' : Char) ∉ e) (he2 : ('.' : Char) ∉ e)
    (hm : hasSub retrMarker name = false) :
    recover_original_filepath (dir ++ '/' :: ((name ++ toL "-v1.2-retrieved") ++ '.' :: e))
      = dir ++ '/' :: (name ++ '.' :: e) := by
  have hrest : ('/' : Char) ∉ (name ++ toL "-v1.2-retrieved") ++ '.' :: e := by
    simp only [List.mem_append, List.mem_cons, not_or]
    exact ⟨⟨hn, by decide⟩, by decide, he1⟩
  have hb := @basenameL_eval dir _ hrest
  have hdir := dirnameL_eval hd hds hrest
  have hany : (name ++ toL "-v1.2-retrieved").any (fun c => c != '.') = true := by
    rw [List.any_append]
    have hv : (toL "-v1.2-retrieved").any (fun c => c != '.') = true := by decide
    simp [hv]
  have hsplit := @splitextL_eval (name ++ toL "-v1.2-retrieved") e he2 hany
  have hc1 : endsWithL (name ++ toL "-v1.2-retrieved") legacyMarker = false := by
    cases hE : endsWithL (name ++ toL "-v1.2-retrieved") legacyMarker with
    | false => rfl
    | true =>
      unfold endsWithL at hE
      have hvs : (toL "-v1.2-retrieved").isSuffixOf (name ++ toL "-v1.2-retrieved") = true :=
        isSuffixOf_append name
      have : (toL "-v1.2-retrieved").isSuffixOf legacyMarker = true :=
        suffix_of_suffix_le hvs hE (by decide)
      exact absurd this (by decide)
  have hc2 : hasSub legacyMarkerD (name ++ toL "-v1.2-retrieved") = false := by
    cases hE : hasSub legacyMarkerD (name ++ toL "-v1.2-retrieved") with
    | false => rfl
    | true =>
      exfalso
      rcases hasSub_append_cases hE with h | h | ⟨j, hj0, hjm, ⟨s, hs⟩, hpref⟩
      · exact absurd (hasSub_trans (show hasSub retrMarker legacyMarkerD = true by decide) h)
          (by simp [hm])
      · exact absurd h (by decide)
      · have hj18 : legacyMarkerD.take j = legacyMarker := by
          have hfact : ∀ j', j' < legacyMarkerD.length → 0 < j' →
              (legacyMarkerD.drop j').isPrefixOf (toL "-v1.2-retrieved") = true →
              legacyMarkerD.take j' = legacyMarker := by decide
          exact hfact j hjm hj0 hpref
        rw [hj18] at hs
        have : hasSub retrMarker name = true :=
          hasSub_trans (by decide) (hasSub_of_isSuffixOf (isSuffixOf_true_iff.mpr ⟨s, hs⟩))
        rw [hm] at this
        exact Bool.false_ne_true this
  have hveq : toL "-v1.2-retrieved" = toL "-v1.2" ++ retrMarker := by decide
  have hc3 : endsWithL (name ++ toL "-v1.2-retrieved") retrMarker = true := by
    unfold endsWithL
    rw [hveq, ← List.append_assoc]
    exact isSuffixOf_append (name ++ toL "-v1.2")
  have htemp : (name ++ toL "-v1.2-retrieved").take
      ((name ++ toL "-v1.2-retrieved").length - retrMarker.length)
      = name ++ toL "-v1.2" := by
    rw [hveq, ← List.append_assoc]
    apply List.take_left'
    simp only [List.length_append]
    have h5 : (toL "-v1.2").length = 5 := by decide
    have h10 : retrMarker.length = 10 := by decide
    omega
  have hhyph : hasSub (toL "-") (name ++ toL "-v1.2") = true :=
    hasSub_append_right name (by decide)
  have h52 : toL "-v1.2" = '-' :: toL "v1.2" := by decide
  have hbe : beforeLastHyphen (name ++ toL "-v1.2") = name := by
    unfold beforeLastHyphen
    rw [h52, breakAtLast_append name (by decide)]
  have hjoin : joinL dir (name ++ '.' :: e) = dir ++ '/' :: (name ++ '.' :: e) :=
    joinL_eval hd hds (startsWithSlash_dot hn)
  simp only [recover_original_filepath, hb, hdir, hsplit, hc1, hc2, hc3, htemp, hhyph,
    hbe, hjoin, Bool.or_self, Bool.false_eq_true, if_false, if_true]

/-- Round trip through the legacy marker: restoring `name.ext` to
`name-retrieved-version.ext` and applying `recover_original_filepath`
recovers `dir/name.ext`, for any stem `name` free of `'-retrieved'`. -/
theorem recover_legacy_eval {dir name e : Str} (hd : dir ≠ [])
    (hds : endsWithL dir ['/'] = false) (hn : ('/' : Char) ∉ name)
    (he1 : ('/' : Char) ∉ e) (he2 : ('.' : Char) ∉ e)
    (hm : hasSub retrMarker name = false) :
    recover_original_filepath (dir ++ '/' :: ((name ++ legacyMarker) ++ '.' :: e))
      = dir ++ '/' :: (name ++ '.' :: e) := by
  have hrest : ('/' : Char) ∉ (name ++ legacyMarker) ++ '.' :: e := by
    simp only [List.mem_append, List.mem_cons, not_or]
    exact ⟨⟨hn, by decide⟩, by decide, he1⟩
  have hb := @basenameL_eval dir _ hrest
  have hdir := dirnameL_eval hd hds hrest
  have hany : (name ++ legacyMarker).any (fun c => c != '.') = true := by
    rw [List.any_append]
    have hv : legacyMarker.any (fun c => c != '.') = true := by decide
    simp [hv]
  have hsplit := @splitextL_eval (name ++ legacyMarker) e he2 hany
  have hc1 : endsWithL (name ++ legacyMarker) legacyMarker = true := by
    unfold endsWithL
    exact isSuffixOf_append name
  have hins : hasSub legacyMarker (name ++ legacyMarker) = true :=
    hasSub_append_right name (hasSub_refl legacyMarker)
  have hsfb : splitFirstBefore legacyMarker (name ++ legacyMarker) = name := by
    have hnil : name ++ legacyMarker = name ++ (legacyMarker ++ []) := by
      rw [List.append_nil]
    rw [hnil]
    apply splitFirstBefore_append
    intro k hk
    cases hE : legacyMarker.isPrefixOf ((name ++ (legacyMarker ++ [])).drop k) with
    | false => rfl
    | true =>
      exfalso
      rcases pref_drop_append_cases hk hE with ⟨-, hpre⟩ | ⟨j, hj0, hjm, -, hpref⟩
      · have : hasSub retrMarker name = true :=
          hasSub_trans (show hasSub retrMarker legacyMarker = true by decide)
            (hasSub_exists.mpr ⟨k, hpre⟩)
        rw [hm] at this
        exact Bool.false_ne_true this
      · rw [List.append_nil] at hpref
        have hfact : ∀ j', j' < legacyMarker.length → 0 < j' →
            (legacyMarker.drop j').isPrefixOf legacyMarker = false := by decide
        rw [hfact j hjm hj0] at hpref
        exact Bool.false_ne_true hpref
  have hjoin : joinL dir (name ++ '.' :: e) = dir ++ '/' :: (name ++ '.' :: e) :=
    joinL_eval hd hds (startsWithSlash_dot hn)
  simp only [recover_original_filepath, hb, hdir, hsplit, hc1, hins, hsfb, hjoin,
    Bool.true_or, if_true]

/-- `looseNormalize` leaves a basename untouched when neither marker is
present (the space variant being looked up case-insensitively, the hyphen
variant case-sensitively, exactly as the code does). -/
theorem looseNormalize_id {b : Str}
    (h1 : hasSub retrMarker (splitextL b).1 = false)
    (h2 : hasSub spaceMarker (lowerL (splitextL b).1) = false) :
    looseNormalize b = b := by
  have hfind : findSub spaceMarker (lowerL (splitextL b).1) = none := by
    cases hf : findSub spaceMarker (lowerL (splitextL b).1) with
    | none => rfl
    | some v =>
      have hs := @findSub_isSome spaceMarker (lowerL (splitextL b).1)
      rw [hf, h2] at hs
      exact absurd hs (by simp)
  simp only [looseNormalize, hfind, h1, Bool.false_eq_true, if_false]
  exact splitextL_recomb b

/-- C1: round-trip law for `StrictRecover` (`recover_original_filepath`).
For every canonical path `dir/name.ext` — formalized as: `dir` non-empty and
not ending in a slash, `name` slash-free and free of the `'-retrieved'`
restore marker, extension `.ext` with `ext` free of slashes and dots —
applying `recover_original_filepath` to the restored name
`dir/name-v1.2-retrieved.ext` yields exactly `dir/name.ext`, and applying it
to the legacy form `dir/name-retrieved-version.ext` also yields exactly
`dir/name.ext`. -/
theorem C1_strictRecover_round_trip (dir name e : Str) (hd : dir ≠ [])
    (hds : endsWithL dir ['/'] = false) (hn : ('/' : Char) ∉ name)
    (he1 : ('/' : Char) ∉ e) (he2 : ('.' : Char) ∉ e)
    (hm : hasSub retrMarker name = false) :
    recover_original_filepath (dir ++ '/' :: ((name ++ toL "-v1.2-retrieved") ++ '.' :: e))
      = dir ++ '/' :: (name ++ '.' :: e) ∧
    recover_original_filepath (dir ++ '/' :: ((name ++ legacyMarker) ++ '.' :: e))
      = dir ++ '/' :: (name ++ '.' :: e) :=
  ⟨recover_vtag_eval hd hds hn he1 he2 hm, recover_legacy_eval hd hds hn he1 he2 hm⟩

/-- Witness for C1 at `dir = "/proj"`, `name = "scene"`, `ext = ".blend"`. -/
theorem C1_strictRecover_round_trip_witness :
    recover_original_filepath
        (toL "/proj" ++ '/' :: ((toL "scene" ++ toL "-v1.2-retrieved") ++ '.' :: toL "blend"))
      = toL "/proj" ++ '/' :: (toL "scene" ++ '.' :: toL "blend") ∧
    recover_original_filepath
        (toL "/proj" ++ '/' :: ((toL "scene" ++ legacyMarker) ++ '.' :: toL "blend"))
      = toL "/proj" ++ '/' :: (toL "scene" ++ '.' :: toL "blend") :=
  C1_strictRecover_round_trip (toL "/proj") (toL "scene") (toL "blend")
    (by decide) (by decide) (by decide) (by decide) (by decide) (by decide)

/-- C2 counterexample: the claim says `'foo-retrieved.ext'` resolves to
`'foo.ext'` (the result "differs from the input even when the remainder has
no hyphen"), but `recover_original_filepath` returns the input unchanged when
stripping `'-retrieved'` leaves no hyphen. -/
theorem C2_counterexample :
    recover_original_filepath (toL "/d/foo-retrieved.ext") = toL "/d/foo-retrieved.ext" ∧
    toL "/d/foo-retrieved.ext" ≠ toL "/d/foo.ext" :=
  ⟨by decide, by decide⟩

/-- C2 (amended): for every path whose basename stem ends in `'-retrieved'`
and does not contain the legacy marker `'-retrieved-version'`, the trailing
`'-retrieved'` is stripped and, only if the remainder contains a hyphen,
everything after the last hyphen is dropped and the path is rebuilt as
`directory/canonicalBase.extension`; when the remainder has no hyphen the
input path is returned unchanged.  The space variant `' retrieved version'`
is not handled by `StrictRecover` at all: any path whose stem has no
`'-retrieved'` substring (in particular every pure space-variant name) is
returned unchanged. -/
theorem C2_strictRecover_step2 :
    (∀ p : Str, endsWithL (splitextL (basenameL p)).1 retrMarker = true →
      hasSub legacyMarker (splitextL (basenameL p)).1 = false →
      recover_original_filepath p =
        (if hasSub (toL "-") ((splitextL (basenameL p)).1.take
              ((splitextL (basenameL p)).1.length - retrMarker.length)) then
          joinL (dirnameL p)
            (beforeLastHyphen ((splitextL (basenameL p)).1.take
              ((splitextL (basenameL p)).1.length - retrMarker.length))
              ++ (splitextL (basenameL p)).2)
        else p)) ∧
    (∀ p : Str, hasSub retrMarker (splitextL (basenameL p)).1 = false →
      recover_original_filepath p = p) := by
  constructor
  · intro p hE hLM
    have hc1 : endsWithL (splitextL (basenameL p)).1 legacyMarker = false := by
      cases hx : endsWithL (splitextL (basenameL p)).1 legacyMarker with
      | false => rfl
      | true =>
        have : hasSub legacyMarker (splitextL (basenameL p)).1 = true :=
          hasSub_of_isSuffixOf hx
        rw [hLM] at this
        exact absurd this (by simp)
    have hc2 : hasSub legacyMarkerD (splitextL (basenameL p)).1 = false := by
      cases hx : hasSub legacyMarkerD (splitextL (basenameL p)).1 with
      | false => rfl
      | true =>
        have : hasSub legacyMarker (splitextL (basenameL p)).1 = true :=
          hasSub_trans (show hasSub legacyMarker legacyMarkerD = true by decide) hx
        rw [hLM] at this
        exact absurd this (by simp)
    simp only [recover_original_filepath, hc1, hc2, hE, Bool.or_self,
      Bool.false_eq_true, if_false, if_true]
  · intro p h
    exact recover_id_of_no_marker h

/-- Witness for C2 (amended) at `'/d/a-v1-retrieved.ext'` (hyphen in the
remainder) and `'/d/plain.ext'` (no marker at all). -/
theorem C2_strictRecover_step2_witness :
    recover_original_filepath (toL "/d/a-v1-retrieved.ext") =
      (if hasSub (toL "-") ((splitextL (basenameL (toL "/d/a-v1-retrieved.ext"))).1.take
            ((splitextL (basenameL (toL "/d/a-v1-retrieved.ext"))).1.length
              - retrMarker.length)) then
        joinL (dirnameL (toL "/d/a-v1-retrieved.ext"))
          (beforeLastHyphen ((splitextL (basenameL (toL "/d/a-v1-retrieved.ext"))).1.take
            ((splitextL (basenameL (toL "/d/a-v1-retrieved.ext"))).1.length
              - retrMarker.length))
            ++ (splitextL (basenameL (toL "/d/a-v1-retrieved.ext"))).2)
      else toL "/d/a-v1-retrieved.ext") ∧
    recover_original_filepath (toL "/d/plain.ext") = toL "/d/plain.ext" :=
  ⟨C2_strictRecover_step2.1 (toL "/d/a-v1-retrieved.ext") (by decide) (by decide),
   C2_strictRecover_step2.2 (toL "/d/plain.ext") (by decide)⟩

/-- C9 counterexample: `'/x/A Retrieved Version.blend'` contains neither the
literal marker `'-retrieved'` nor the literal space variant
`' retrieved version'` in its basename, yet `LooseNormalize` does not leave
the basename fixed, because the code looks the space variant up in the
lower-cased stem. -/
theorem C9_counterexample :
    hasSub retrMarker (basenameL (toL "/x/A Retrieved Version.blend")) = false ∧
    hasSub spaceMarker (basenameL (toL "/x/A Retrieved Version.blend")) = false ∧
    looseNormalize (basenameL (toL "/x/A Retrieved Version.blend"))
      ≠ basenameL (toL "/x/A Retrieved Version.blend") :=
  ⟨by decide, by decide, by decide⟩

/-- C9 (amended): idempotence on unmangled names, with the space-variant
marker read case-insensitively (as the code does): if the basename of `p`
contains no `'-retrieved'` substring and its lower-casing contains no
`' retrieved version'` substring, then `StrictRecover p = p` and
`LooseNormalize (basename p) = basename p`. -/
theorem C9_idempotence (p : Str)
    (h1 : hasSub retrMarker (basenameL p) = false)
    (h2 : hasSub spaceMarker (lowerL (basenameL p)) = false) :
    recover_original_filepath p = p ∧ looseNormalize (basenameL p) = basenameL p := by
  have hp1 : hasSub retrMarker (splitextL (basenameL p)).1 = false :=
    hasSub_false_of_pref (splitextL_fst_pref (basenameL p)) h1
  have hp2 : hasSub spaceMarker (lowerL (splitextL (basenameL p)).1) = false :=
    hasSub_false_of_pref (lowerL_pref (splitextL_fst_pref (basenameL p))) h2
  exact ⟨recover_id_of_no_marker hp1, looseNormalize_id hp1 hp2⟩

/-- Witness for C9 (amended) at `'/x/Foo.blend'`. -/
theorem C9_idempotence_witness :
    recover_original_filepath (toL "/x/Foo.blend") = toL "/x/Foo.blend" ∧
    looseNormalize (basenameL (toL "/x/Foo.blend")) = basenameL (toL "/x/Foo.blend") :=
  C9_idempotence (toL "/x/Foo.blend") (by decide) (by decide)

/-- C8 counterexample: the claim says the history cache's minimum refetch
interval is strictly longer than the root-cache TTL, but
`SafeVersionList.fetch_interval = 10.0` is not greater than
`RootCache.duration = 30.0`. -/
theorem C8_counterexample :
    ¬ (SafeVersionList.fetch_interval > RootCache.duration) := by
  decide

/-- C8 (amended): the version-history cache's minimum refetch interval
(`SafeVersionList.fetch_interval = 10.0`) is strictly *shorter* than the
root-cache TTL (`RootCache.duration = 30.0`). -/
theorem C8_interval_lt_ttl :
    SafeVersionList.fetch_interval < RootCache.duration := by
  decide

/-- C10: for an empty (falsy) file path, `get_project_root` returns `None`
immediately: no remote call is made and the cache is left untouched. -/
theorem C10_empty_filepath (remote : Str → Option Str) (now : ℚ) (cache : RootCacheT) :
    get_project_root remote now [] cache = ⟨none, cache, 0⟩ := rfl

theorem lookupRC_updateRC (k : Str) (v : RootEntry) (c : RootCacheT) :
    lookupRC k (updateRC k v c) = some v := by
  induction c with
  | nil => simp [updateRC, lookupRC]
  | cons hd tl ih =>
    obtain ⟨k', v'⟩ := hd
    by_cases hk : k' == k
    · simp [updateRC, lookupRC, hk]
    · simp only [updateRC, hk, Bool.false_eq_true, if_false, lookupRC]
      exact ih

/-- C7: Root Cache correctness.  Starting from a cache with no entry for
`dirname fp`, a first call at `t1` makes exactly one remote request and
returns `remote (dirname fp)` (which may be `none` — "no root found" — and is
cached all the same); a second call at `t2` with `t2 - t1 < 30` returns the
cached root with no request and leaves the cache unchanged; a call at `t3`
with `t3 - t1 ≥ 30` makes exactly one more request and overwrites the entry
with the new result and the fresh timestamp `t3`. -/
theorem C7_root_cache (remote : Str → Option Str) (fp : Str) (c0 : RootCacheT)
    (t1 t2 t3 : ℚ) (hfp : fp ≠ [])
    (h0 : lookupRC (dirnameL fp) c0 = none)
    (h12 : t2 - t1 < RootCache.duration)
    (h13 : ¬ (t3 - t1 < RootCache.duration)) :
    (get_project_root remote t1 fp c0).calls = 1 ∧
    (get_project_root remote t1 fp c0).root = remote (dirnameL fp) ∧
    (get_project_root remote t2 fp (get_project_root remote t1 fp c0).cache).root
      = remote (dirnameL fp) ∧
    (get_project_root remote t2 fp (get_project_root remote t1 fp c0).cache).calls = 0 ∧
    (get_project_root remote t2 fp (get_project_root remote t1 fp c0).cache).cache
      = (get_project_root remote t1 fp c0).cache ∧
    (get_project_root remote t3 fp (get_project_root remote t1 fp c0).cache).calls = 1 ∧
    lookupRC (dirnameL fp)
        (get_project_root remote t3 fp (get_project_root remote t1 fp c0).cache).cache
      = some ⟨remote (dirnameL fp), t3⟩ := by
  have hfe : fp.isEmpty = false := by simp [List.isEmpty_iff, hfp]
  have h1 : get_project_root remote t1 fp c0
      = ⟨remote (dirnameL fp), updateRC (dirnameL fp) ⟨remote (dirnameL fp), t1⟩ c0, 1⟩ := by
    simp only [get_project_root, hfe, Bool.false_eq_true, if_false, h0]
  have hlk : lookupRC (dirnameL fp) (updateRC (dirnameL fp) ⟨remote (dirnameL fp), t1⟩ c0)
      = some ⟨remote (dirnameL fp), t1⟩ := lookupRC_updateRC _ _ _
  have h2 : get_project_root remote t2 fp
      (updateRC (dirnameL fp) ⟨remote (dirnameL fp), t1⟩ c0)
      = ⟨remote (dirnameL fp), updateRC (dirnameL fp) ⟨remote (dirnameL fp), t1⟩ c0, 0⟩ := by
    simp only [get_project_root, hfe, Bool.false_eq_true, if_false, hlk]
    rw [if_pos h12]
  have h3 : get_project_root remote t3 fp
      (updateRC (dirnameL fp) ⟨remote (dirnameL fp), t1⟩ c0)
      = ⟨remote (dirnameL fp),
         updateRC (dirnameL fp) ⟨remote (dirnameL fp), t3⟩
           (updateRC (dirnameL fp) ⟨remote (dirnameL fp), t1⟩ c0), 1⟩ := by
    simp only [get_project_root, hfe, Bool.false_eq_true, if_false, hlk]
    rw [if_neg h13]
  refine ⟨by simp only [h1], by simp only [h1], by simp only [h1]; rw [h2],
    by simp only [h1]; rw [h2], by simp only [h1]; rw [h2], by simp only [h1]; rw [h3], ?_⟩
  simp only [h1]
  rw [h3]
  exact lookupRC_updateRC _ _ _

/-- Witness for C7: `remote` always answers "no root found" (`none`), times
`0`, `10`, `40`; the empty answer is cached and served from cache at `10`. -/
theorem C7_root_cache_witness :
    (get_project_root (fun _ => none) 0 (toL "/p/f.blend") []).calls = 1 ∧
    (get_project_root (fun _ => none) 0 (toL "/p/f.blend") []).root
      = (fun _ => none : Str → Option Str) (dirnameL (toL "/p/f.blend")) ∧
    (get_project_root (fun _ => none) 10 (toL "/p/f.blend")
        (get_project_root (fun _ => none) 0 (toL "/p/f.blend") []).cache).root
      = (fun _ => none : Str → Option Str) (dirnameL (toL "/p/f.blend")) ∧
    (get_project_root (fun _ => none) 10 (toL "/p/f.blend")
        (get_project_root (fun _ => none) 0 (toL "/p/f.blend") []).cache).calls = 0 ∧
    (get_project_root (fun _ => none) 10 (toL "/p/f.blend")
        (get_project_root (fun _ => none) 0 (toL "/p/f.blend") []).cache).cache
      = (get_project_root (fun _ => none) 0 (toL "/p/f.blend") []).cache ∧
    (get_project_root (fun _ => none) 40 (toL "/p/f.blend")
        (get_project_root (fun _ => none) 0 (toL "/p/f.blend") []).cache).calls = 1 ∧
    lookupRC (dirnameL (toL "/p/f.blend"))
        (get_project_root (fun _ => none) 40 (toL "/p/f.blend")
          (get_project_root (fun _ => none) 0 (toL "/p/f.blend") []).cache).cache
      = some ⟨(fun _ => none : Str → Option Str) (dirnameL (toL "/p/f.blend")), 40⟩ :=
  C7_root_cache (fun _ => none) (toL "/p/f.blend") [] 0 10 40 (by decide) rfl
    (by norm_num [RootCache.duration]) (by norm_num [RootCache.duration])

/-- Does a poll iteration end through the `except Exception` handler? -/
def pollRaises : PollOutcome → Bool
  | .healthRaises => true
  | .authRaises => true
  | _ => false

/-- C4 counterexample: an iteration whose body raises (here: the
`/auth/status` call) sets `app_running = False` but leaves a previously
recorded login state in place — the post-state has `serviceReachable` false
while `loggedIn` is still true, violating the claimed invariant. -/
theorem C4_counterexample :
    ¬ snapInv (status_worker_step ⟨true, true, some (toL "alice")⟩ PollOutcome.authRaises) := by
  simp [snapInv, status_worker_step]

/-- C4 (amended): the `StatusSnapshot` invariant (service unreachable implies
logged-out and no username) is preserved by every iteration of the
`status_worker` loop body that does not raise; an iteration that raises sets
`app_running` to false but leaves `is_logged_in` and `username` untouched, so
a stale logged-in state survives exactly those iterations. -/
theorem C4_status_invariant (st : StatusSnapshot) (o : PollOutcome) :
    (pollRaises o = false → snapInv (status_worker_step st o)) ∧
    (pollRaises o = true → (status_worker_step st o).app_running = false ∧
      (status_worker_step st o).is_logged_in = st.is_logged_in ∧
      (status_worker_step st o).username = st.username) := by
  cases o with
  | healthRaises =>
    exact ⟨fun h => by simp [pollRaises] at h, fun _ => by simp [status_worker_step]⟩
  | healthDown =>
    exact ⟨fun _ => by simp [snapInv, status_worker_step], fun h => by simp [pollRaises] at h⟩
  | authRaises =>
    exact ⟨fun h => by simp [pollRaises] at h, fun _ => by simp [status_worker_step]⟩
  | authRes li un =>
    refine ⟨fun _ => ?_, fun h => by simp [pollRaises] at h⟩
    cases li <;> simp [snapInv, status_worker_step]

/-- Witness for C4 (amended): a non-raising "service down" iteration resets
a previously logged-in snapshot. -/
theorem C4_status_invariant_witness :
    snapInv (status_worker_step ⟨true, true, some (toL "alice")⟩ PollOutcome.healthDown) :=
  (C4_status_invariant ⟨true, true, some (toL "alice")⟩ PollOutcome.healthDown).1 rfl

/-- C3 counterexample: a 2xx response whose body is not valid JSON makes
`send_request` raise to its caller (`json.loads` raises and
`json.JSONDecodeError` is not among the caught exception classes), so the
function is not total over the claimed failure modes. -/
theorem C3_counterexample :
    send_request (fun _ => none) (HttpOutcome.success (toL "not json")) = ReqOutcome.raises :=
  rfl

theorem isUniformFailure_uniformFailure (e : Str) :
    isUniformFailure (uniformFailure e) = true := rfl

/-- C3 (amended): `send_request` raises if and only if a 2xx response body
fails to parse; in every other case — 2xx with parseable body, `HTTPError`
with parseable or unparseable body, and every caught network error — it
returns a value that is either a parsed response body or the uniform
`{'success': False, 'error': ...}` failure mapping. -/
theorem C3_send_request_total (parse : Str → Option PyVal) (o : HttpOutcome) :
    (send_request parse o = ReqOutcome.raises ↔ ∃ b, o = HttpOutcome.success b ∧ parse b = none) ∧
    (∀ v, send_request parse o = ReqOutcome.ret v →
      (∃ b, parse b = some v) ∨ isUniformFailure v = true) := by
  cases o with
  | success b =>
    cases hp : parse b with
    | none =>
      refine ⟨⟨fun _ => ⟨b, rfl, hp⟩, fun _ => by simp [send_request, hp]⟩, fun v hv => ?_⟩
      simp [send_request, hp] at hv
    | some v0 =>
      refine ⟨⟨fun h => ?_, fun ⟨b', hb', hp'⟩ => ?_⟩, fun v hv => ?_⟩
      · simp [send_request, hp] at h
      · obtain rfl : b' = b := by injection hb' with h; exact h.symm
        rw [hp] at hp'
        exact absurd hp' (by simp)
      · simp only [send_request, hp] at hv
        injection hv with hv
        exact Or.inl ⟨b, by rw [hp, hv]⟩
  | httpError code body =>
    cases hp : parse body with
    | none =>
      refine ⟨⟨fun h => ?_, fun ⟨b', hb', _⟩ => by simp at hb'⟩, fun v hv => ?_⟩
      · simp [send_request, hp] at h
      · simp only [send_request, hp] at hv
        injection hv with hv
        exact Or.inr (hv ▸ isUniformFailure_uniformFailure _)
    | some v0 =>
      refine ⟨⟨fun h => ?_, fun ⟨b', hb', _⟩ => by simp at hb'⟩, fun v hv => ?_⟩
      · simp [send_request, hp] at h
      · simp only [send_request, hp] at hv
        injection hv with hv
        exact Or.inl ⟨body, by rw [hp, hv]⟩
  | netError m =>
    refine ⟨⟨fun h => ?_, fun ⟨b', hb', _⟩ => by simp at hb'⟩, fun v hv => ?_⟩
    · simp [send_request] at h
    · simp only [send_request] at hv
      injection hv with hv
      exact Or.inr (hv ▸ isUniformFailure_uniformFailure _)

/-- Witness for C3 (amended): a connection-refused outcome is returned as the
uniform failure shape. -/
theorem C3_send_request_total_witness :
    (∃ b, (fun _ => none : Str → Option PyVal) b = some (uniformFailure (toL "refused"))) ∨
    isUniformFailure (uniformFailure (toL "refused")) = true :=
  (C3_send_request_total (fun _ => none) (HttpOutcome.netError (toL "refused"))).2
    (uniformFailure (toL "refused")) rfl

/-- C5 counterexample: when the resolved target does not equal the open path
(`samefile` answers false) and the `/draft/restore` call fails, no Reopen is
attempted at all — contradicting "whenever RemoteRestore fails, Reopen is
still attempted exactly once". -/
theorem C5_counterexample :
    (restore_execute (fun _ => some (toL "/p")) 0 [] (toL "/p/a.blend") (toL "v1")
        ⟨SameFileRes.ok false, false, false⟩).events = [REvent.remoteRestore] ∧
    REvent.reopen ∉ (restore_execute (fun _ => some (toL "/p")) 0 [] (toL "/p/a.blend")
        (toL "v1") ⟨SameFileRes.ok false, false, false⟩).events := by
  exact ⟨by decide, by decide⟩

/-- C5 (amended): restore sequencing.  For every restore execution that
passes the guards (non-empty version id, truthy project root):

* when the resolved target is judged to be the currently open file, the event
  order is exactly ReleaseLock → RemoteRestore → Reopen (whether or not the
  restore call succeeds);
* when it is not, ReleaseLock is skipped;
* when RemoteRestore fails, Reopen is attempted exactly once *provided*
  ReleaseLock ran (target = open path); when the target differs, Reopen is
  not attempted at all. -/
theorem C5_restore_sequencing (remote : Str → Option Str) (now : ℚ) (cache : RootCacheT)
    (filepath version_id : Str) (env : RestoreEnv)
    (hv : version_id ≠ [])
    (hr : truthyRoot (get_project_root remote now filepath cache).root = true) :
    (isOpenFileCheck filepath (recover_original_filepath filepath) env.sameFile = true →
      (restore_execute remote now cache filepath version_id env).events
        = [REvent.releaseLock, REvent.remoteRestore, REvent.reopen]) ∧
    (isOpenFileCheck filepath (recover_original_filepath filepath) env.sameFile = false →
      REvent.releaseLock ∉ (restore_execute remote now cache filepath version_id env).events) ∧
    (env.restoreOk = false →
      ((restore_execute remote now cache filepath version_id env).events.count REvent.reopen)
        = (if isOpenFileCheck filepath (recover_original_filepath filepath) env.sameFile
            then 1 else 0)) := by
  have hve : version_id.isEmpty = false := by simp [List.isEmpty_iff, hv]
  cases hio : isOpenFileCheck filepath (recover_original_filepath filepath) env.sameFile <;>
    cases hok : env.restoreOk <;>
      simp [restore_execute, hve, hr, hio, hok, List.count_cons]

/-- Witness for C5 (amended): target equals the open file, restore fails. -/
theorem C5_restore_sequencing_witness :
    (isOpenFileCheck (toL "/p/a.blend")
        (recover_original_filepath (toL "/p/a.blend")) (SameFileRes.ok true) = true →
      (restore_execute (fun _ => some (toL "/p")) 0 [] (toL "/p/a.blend") (toL "v1")
          ⟨SameFileRes.ok true, false, false⟩).events
        = [REvent.releaseLock, REvent.remoteRestore, REvent.reopen]) ∧
    (isOpenFileCheck (toL "/p/a.blend")
        (recover_original_filepath (toL "/p/a.blend")) (SameFileRes.ok true) = false →
      REvent.releaseLock ∉ (restore_execute (fun _ => some (toL "/p")) 0 [] (toL "/p/a.blend")
          (toL "v1") ⟨SameFileRes.ok true, false, false⟩).events) ∧
    (false = false →
      ((restore_execute (fun _ => some (toL "/p")) 0 [] (toL "/p/a.blend") (toL "v1")
          ⟨SameFileRes.ok true, false, false⟩).events.count REvent.reopen)
        = (if isOpenFileCheck (toL "/p/a.blend")
              (recover_original_filepath (toL "/p/a.blend")) (SameFileRes.ok true)
            then 1 else 0)) :=
  C5_restore_sequencing (fun _ => some (toL "/p")) 0 [] (toL "/p/a.blend") (toL "v1")
    ⟨SameFileRes.ok true, false, false⟩ (by decide) (by decide)

/-- C6 counterexample: on the best-effort path (RemoteRestore already failed,
target equals the open path) a Reopen failure produces no report at all — the
`except: pass` swallows it — so the reopen failure is not surfaced, let alone
distinguishably. -/
theorem C6_counterexample :
    (restore_execute (fun _ => some (toL "/p")) 0 [] (toL "/p/a.blend") (toL "v1")
        ⟨SameFileRes.ok true, false, true⟩).events
      = [REvent.releaseLock, REvent.remoteRestore, REvent.reopen] ∧
    (restore_execute (fun _ => some (toL "/p")) 0 [] (toL "/p/a.blend") (toL "v1")
        ⟨SameFileRes.ok true, false, true⟩).reports = [RReport.restoreFailErr] ∧
    RReport.reopenFailErr ∉ (restore_execute (fun _ => some (toL "/p")) 0 [] (toL "/p/a.blend")
        (toL "v1") ⟨SameFileRes.ok true, false, true⟩).reports := by
  exact ⟨by decide, by decide, by decide⟩

/-- C6 (amended): a Reopen failure is surfaced with its own message,
distinguishable from a RemoteRestore failure, only on the path where
RemoteRestore succeeded (`"Restored but failed to open"` after
`"Restored ..."`); on the best-effort path after a RemoteRestore failure the
Reopen failure is silently swallowed and only the restore failure is
reported. -/
theorem C6_reopen_failure_reports (remote : Str → Option Str) (now : ℚ)
    (cache : RootCacheT) (filepath version_id : Str) (env : RestoreEnv)
    (hv : version_id ≠ [])
    (hr : truthyRoot (get_project_root remote now filepath cache).root = true) :
    (env.restoreOk = true → env.reopenRaises = true →
      (restore_execute remote now cache filepath version_id env).reports
        = [RReport.restoredInfo, RReport.reopenFailErr]) ∧
    (env.restoreOk = true → env.reopenRaises = false →
      (restore_execute remote now cache filepath version_id env).reports
        = [RReport.restoredInfo]) ∧
    (env.restoreOk = false →
      (restore_execute remote now cache filepath version_id env).reports
        = [RReport.restoreFailErr] ∧
      RReport.reopenFailErr ∉
        (restore_execute remote now cache filepath version_id env).reports) ∧
    RReport.reopenFailErr ≠ RReport.restoreFailErr := by
  have hve : version_id.isEmpty = false := by simp [List.isEmpty_iff, hv]
  refine ⟨?_, ?_, ?_, by decide⟩ <;>
    cases hok : env.restoreOk <;>
      cases hre : env.reopenRaises <;>
        simp [restore_execute, hve, hr, hok, hre]

/-- Witness for C6 (amended): restore succeeds and the reopen raises, so the
reopen failure gets its own report. -/
theorem C6_reopen_failure_reports_witness :
    (true = true → true = true →
      (restore_execute (fun _ => some (toL "/p")) 0 [] (toL "/p/a.blend") (toL "v1")
          ⟨SameFileRes.ok true, true, true⟩).reports
        = [RReport.restoredInfo, RReport.reopenFailErr]) ∧
    (true = true → true = false →
      (restore_execute (fun _ => some (toL "/p")) 0 [] (toL "/p/a.blend") (toL "v1")
          ⟨SameFileRes.ok true, true, true⟩).reports
        = [RReport.restoredInfo]) ∧
    (true = false →
      (restore_execute (fun _ => some (toL "/p")) 0 [] (toL "/p/a.blend") (toL "v1")
          ⟨SameFileRes.ok true, true, true⟩).reports
        = [RReport.restoreFailErr] ∧
      RReport.reopenFailErr ∉
        (restore_execute (fun _ => some (toL "/p")) 0 [] (toL "/p/a.blend") (toL "v1")
          ⟨SameFileRes.ok true, true, true⟩).reports) ∧
    RReport.reopenFailErr ≠ RReport.restoreFailErr :=
  C6_reopen_failure_reports (fun _ => some (toL "/p")) 0 [] (toL "/p/a.blend") (toL "v1")
    ⟨SameFileRes.ok true, true, true⟩ (by decide) (by decide)
